import Mathlib

/-!
Verification of the `ensureinterval` Go package (`interval.go`, `logger.go`):
a fixed-tick scheduler that runs jobs whose frequency is a multiple of a base
interval, replaying missed ticks (catch-up) when job execution overruns the
interval.

Shallow embedding conventions:
- `time.Time` and `time.Duration` are both modelled as `Int` (nanoseconds since
  the epoch / nanosecond counts), matching the int64 representation in Go.
- `time.Time.Truncate` is `goTruncate` below, with the documented Go semantics
  that a non-positive duration leaves the time unchanged.
- The `Exec` field of a `Job` is the shallow embedding of its nullary `ExecFunc`:
  the error value one invocation returns (`none` = nil error, `some e` = an error
  whose message is `e`). Errors throughout are modelled by their message strings.
- `runJob` communicates over an unbuffered channel; we model one invocation by
  the ordered list of values it sends (`runJobSignals`), and the single value the
  receiving loop in `processJobs` consumes from that channel (`receivedSignal`,
  the first send, since the channel is unbuffered and `processJobs` receives
  exactly once per channel).
- Wall-clock readings made inside `Run` (`time.Now().Sub(...)`) are inputs of
  the model, supplied as explicit measurement arguments.
-/

/-- `time.Time.Truncate` (Go standard library): rounds `t` down to a multiple of
`d` since the epoch; for `d ≤ 0` it returns `t` unchanged. -/
def goTruncate (t d : Int) : Int :=
  if d ≤ 0 then t else t - t % d

/-- `Job` (interval.go lines 9-14). `Exec` is the error value returned by one
invocation of the ExecFunc (`none` for a nil error). `Frequency` is the
`time.Duration` multiplier. -/
structure Job where
  Name : String
  Exec : Option String
  Frequency : Int
  deriving DecidableEq, Repr

/-- The due test used by `processJobs` (interval.go line 81):
`now.Truncate(j.Frequency*interval) == now`. -/
def isDue (now interval : Int) (j : Job) : Bool :=
  goTruncate now (j.Frequency * interval) == now

/-- The sublist of `jobs` that `processJobs` launches at tick `now`
(interval.go lines 80-87): the jobs passing the due test, in order. -/
def dueJobs (now interval : Int) (jobs : List Job) : List Job :=
  jobs.filter (isDue now interval)

/-- Message of `errors.Wrapf(err, "executing job %s", job.Name)`
(interval.go line 71). -/
def wrapJobErr (j : Job) (e : String) : String :=
  "executing job " ++ j.Name ++ ": " ++ e

/-- `runJob` (interval.go lines 66-75): the ordered list of values one
invocation sends on its `complete` channel. When `job.Exec()` returns an error
the code sends the wrapped error and then falls through to the unconditional
`complete <- nil`, so a failing invocation performs two sends. -/
def runJobSignals (j : Job) : List (Option String) :=
  match j.Exec with
  | some e => [some (wrapJobErr j e), none]
  | none => [none]

/-- The value `processJobs` receives from the channel of one launched job
(interval.go line 91): its single receive synchronizes with the first send of
that invocation (the channel is unbuffered, so the second send of a failing
invocation blocks forever and is never received). -/
def receivedSignal (j : Job) : Option String :=
  match runJobSignals j with
  | [] => none
  | s :: _ => s

/-- The error-string aggregation of `processJobs` (interval.go lines 104-107):
starting from the empty string, `errStr = fmt.Sprintf("%s, %s", errStr, err)`
for each collected error. -/
def combineErrs (errs : List String) : String :=
  errs.foldl (fun acc e => acc ++ ", " ++ e) ""

/-- `processJobs` (interval.go lines 77-109): launch the due jobs, receive one
completion value per launched channel (collecting the non-nil ones in order),
return nil when none failed and the combined error otherwise. -/
def processJobs (now interval : Int) (jobs : List Job) : Option String :=
  let errs := (dueJobs now interval jobs).filterMap receivedSignal
  if errs.isEmpty then none else some (combineErrs errs)

/-- `errMaxCatchups` (interval.go lines 111-124). -/
structure ErrMaxCatchups where

/-- The `Error()` method of `errMaxCatchups` (interval.go lines 114-116). -/
def ErrMaxCatchups.ErrorOf (_ : ErrMaxCatchups) : String := "max catchups reached"

/-- The `Temporary()` method of `errMaxCatchups` (interval.go lines 122-124). -/
def ErrMaxCatchups.Temporary (_ : ErrMaxCatchups) : Bool := true

/-- One call delivered to the logger interface (logger.go lines 3-7): the three
methods `Debug`, `Debugf`, `Printf`, with their arguments rendered as strings. -/
inductive LogCall where
  | Debug (a : List String)
  | Debugf (f : String) (a : List String)
  | Printf (f : String) (a : List String)
  deriving DecidableEq, Repr

/-- `debug` (logger.go lines 16-21): the calls it forwards to the logger.
`lgSet` models whether the package variable `lg` is non-nil; when it is nil the
function returns without invoking anything. -/
def debug (lgSet : Bool) (a : List String) : List LogCall :=
  if lgSet then [LogCall.Debug a] else []

/-- `debugf` (logger.go lines 23-28): the calls it forwards to the logger. -/
def debugf (lgSet : Bool) (f : String) (a : List String) : List LogCall :=
  if lgSet then [LogCall.Debugf f a] else []

/-- `logf` (logger.go lines 30-35): the calls it forwards to the logger. -/
def logf (lgSet : Bool) (f : String) (a : List String) : List LogCall :=
  if lgSet then [LogCall.Printf f a] else []

/-- The receive loop of `processJobs` (interval.go lines 90-97): one receive per
launched channel, in launch order; collects the non-nil values in order and the
log calls made along the way (`logf("%+v", err)` on a failure, then
`debug("job finished")` after every receive). -/
def receiveLoop (lgSet : Bool) : List Job → List String × List LogCall
  | [] => ([], [])
  | j :: rest =>
    let r := receiveLoop lgSet rest
    match receivedSignal j with
    | some err =>
        (err :: r.1, (logf lgSet "%+v" [err] ++ debug lgSet ["job finished"]) ++ r.2)
    | none => (r.1, debug lgSet ["job finished"] ++ r.2)

/-- `processJobs` together with the log calls it makes (interval.go lines
77-109): the `debugf("running job %s (%s)")` of each launched `runJob` (listed
in launch order; in Go these come from the spawned goroutines and may
interleave, which the claims do not depend on), `debugf("started %d jobs")`,
and the receive-loop calls. The first component is the returned error. -/
def processJobsLog (lgSet : Bool) (now interval : Int) (jobs : List Job) :
    Option String × List LogCall :=
  let due := dueJobs now interval jobs
  let runLogs := due.foldl
    (fun acc j =>
      acc ++ debugf lgSet "running job %s (%s)" [j.Name, toString (j.Frequency * interval)]) []
  let r := receiveLoop lgSet due
  (if r.1.isEmpty then none else some (combineErrs r.1),
    (runLogs ++ debugf lgSet "started %d jobs" [toString due.length]) ++ r.2)

/-- `sub` occurs as a contiguous substring of `s`. -/
def containsStr (s sub : String) : Prop :=
  ∃ l r, s = l ++ sub ++ r

/-- Initial value of the package variable `maxKetchups` (interval.go line 23). -/
def maxKetchups : Int := 20

/-- `SetMaxCatchup` (interval.go lines 27-29) as a state transformer on the
package variable: it replaces the current value with `max`. -/
def SetMaxCatchup (max _current : Int) : Int := max

/-- Result of the catch-up sub-loop of `Run`. -/
inductive RunOutcome where
  | ok (lastElapsed : Int)
  | jobErr (msg : String)
  | maxCatchups
  | fuelOut
  deriving DecidableEq, Repr

/-- The catch-up sub-loop of `Run` (interval.go lines 51-60), entered with
`elapsed`, `totalInterval` and `lastElapsed` as in line 50-51. `measure k` is
the value `time.Now().Sub(nowKetchup)` observed in round `k` (line 56);
`maxK k` is the value of the mutable package variable `maxKetchups` read at the
ceiling check of round `k` (line 57) — the code reads the global afresh at each
check. Returns the catch-up tick boundaries passed to `processJobs`, in order,
and the outcome (`ok` carries the final `lastElapsed`, used for the sleep at
line 61). `fuel` bounds the recursion depth; `fuelOut` marks exhaustion. -/
def catchupLoop (interval now : Int) (jobs : List Job) (measure maxK : Nat → Int)
    (elapsed totalInterval lastElapsed : Int) : Nat → List Int × RunOutcome
  | 0 => ([], RunOutcome.fuelOut)
  | fuel + 1 =>
    if elapsed > totalInterval then
      match processJobs (now + totalInterval) interval jobs with
      | some e => ([now + totalInterval], RunOutcome.jobErr e)
      | none =>
        if totalInterval > interval * maxK 0 then
          ([now + totalInterval], RunOutcome.maxCatchups)
        else
          let r := catchupLoop interval now jobs (fun i => measure (i + 1))
            (fun i => maxK (i + 1)) (elapsed + measure 0) (totalInterval + interval)
            (measure 0) fuel
          ((now + totalInterval) :: r.1, r.2)
    else ([], RunOutcome.ok lastElapsed)

/-- The catch-up sub-loop as claim C3 words it: the continuation test compares
the most recently re-measured `lastElapsed` — not the accumulated `elapsed` —
against `totalInterval`. Identical to `catchupLoop` except for the condition. -/
def claimLoopC3 (interval now : Int) (jobs : List Job) (measure maxK : Nat → Int)
    (elapsed totalInterval lastElapsed : Int) : Nat → List Int × RunOutcome
  | 0 => ([], RunOutcome.fuelOut)
  | fuel + 1 =>
    if lastElapsed > totalInterval then
      match processJobs (now + totalInterval) interval jobs with
      | some e => ([now + totalInterval], RunOutcome.jobErr e)
      | none =>
        if totalInterval > interval * maxK 0 then
          ([now + totalInterval], RunOutcome.maxCatchups)
        else
          let r := claimLoopC3 interval now jobs (fun i => measure (i + 1))
            (fun i => maxK (i + 1)) (elapsed + measure 0) (totalInterval + interval)
            (measure 0) fuel
          ((now + totalInterval) :: r.1, r.2)
    else ([], RunOutcome.ok lastElapsed)

/-- The catch-up sub-loop as claim C4 words it: each round first advances
`totalInterval` by one interval (and `elapsed` by the new measurement) and only
then performs the ceiling check against the advanced value. Identical to
`catchupLoop` except for the order of advance and check. -/
def claimLoopC4 (interval now : Int) (jobs : List Job) (measure maxK : Nat → Int)
    (elapsed totalInterval lastElapsed : Int) : Nat → List Int × RunOutcome
  | 0 => ([], RunOutcome.fuelOut)
  | fuel + 1 =>
    if elapsed > totalInterval then
      match processJobs (now + totalInterval) interval jobs with
      | some e => ([now + totalInterval], RunOutcome.jobErr e)
      | none =>
        if totalInterval + interval > interval * maxK 0 then
          ([now + totalInterval], RunOutcome.maxCatchups)
        else
          let r := claimLoopC4 interval now jobs (fun i => measure (i + 1))
            (fun i => maxK (i + 1)) (elapsed + measure 0) (totalInterval + interval)
            (measure 0) fuel
          ((now + totalInterval) :: r.1, r.2)
    else ([], RunOutcome.ok lastElapsed)

/-- Result of one iteration of the outer loop of `Run`. -/
inductive IterOutcome where
  | loadErr (msg : String)
  | jobErr (msg : String)
  | maxCatchups
  | sleep (d : Int)
  | fuelOut
  deriving DecidableEq, Repr

/-- One iteration of the outer loop of `Run` (interval.go lines 41-63).
`nowRaw` is the `time.Now()` of line 42; `loader` is the result of the single
`getJobs()` call the iteration makes (line 43); `elapsed0` is the measurement
`time.Now().Sub(now)` of line 50. Returns the `(tickTime, jobs)` argument pair
of every `processJobs` call made, in order, and the outcome (`sleep d` models
reaching line 62 with `sleepTime = d`). -/
def runIteration (interval nowRaw : Int) (loader : Except String (List Job))
    (elapsed0 : Int) (measure maxK : Nat → Int) (fuel : Nat) :
    List (Int × List Job) × IterOutcome :=
  let now := goTruncate nowRaw interval
  match loader with
  | Except.error e => ([], IterOutcome.loadErr ("getting jobs: " ++ e))
  | Except.ok jobs =>
    match processJobs now interval jobs with
    | some e => ([(now, jobs)], IterOutcome.jobErr e)
    | none =>
      let r := catchupLoop interval now jobs measure maxK elapsed0 interval elapsed0 fuel
      ((now, jobs) :: r.1.map (fun t => (t, jobs)),
        match r.2 with
        | RunOutcome.ok l => IterOutcome.sleep (interval - l)
        | RunOutcome.jobErr e => IterOutcome.jobErr e
        | RunOutcome.maxCatchups => IterOutcome.maxCatchups
        | RunOutcome.fuelOut => IterOutcome.fuelOut)

/-- The accumulated `elapsed` of the catch-up loop: `elapsed` starts at the
initial `lastElapsed` measurement and grows by the round-`k` measurement after
round `k`. -/
def accElapsed (e0 : Int) (measure : Nat → Int) : Nat → Int
  | 0 => e0
  | k + 1 => accElapsed e0 measure k + measure k

theorem goTruncate_eq_self_iff (t d : Int) (hd : 0 < d) : goTruncate t d = t ↔ d ∣ t := by
  unfold goTruncate
  rw [if_neg (not_le.mpr hd), sub_eq_self]
  exact ⟨fun h => Int.dvd_of_emod_eq_zero h, fun h => Int.emod_eq_zero_of_dvd h⟩

/-- C1: `processJobs` launches a job iff truncating the tick time to
`Frequency * interval` leaves it unchanged, and when that period is positive the
test holds exactly at tick times that are multiples of the period from the
epoch, and at no others. -/
theorem c1_due_selection :
    (∀ (now interval : Int) (jobs : List Job) (j : Job),
      j ∈ dueJobs now interval jobs ↔
        j ∈ jobs ∧ goTruncate now (j.Frequency * interval) = now) ∧
    (∀ (now interval : Int) (j : Job), 0 < j.Frequency * interval →
      (isDue now interval j = true ↔ (j.Frequency * interval) ∣ now)) := by
  constructor
  · intro now interval jobs j
    simp [dueJobs, List.mem_filter, isDue]
  · intro now interval j h
    simp only [isDue, beq_iff_eq]
    exact goTruncate_eq_self_iff now _ h

/-- C1 witness: a job of frequency 2 with base interval 3 is due at tick 12
(a multiple of 6), by direct application of the selection theorem. -/
theorem c1_due_selection_witness :
    (0 < (Job.mk "a" none 2).Frequency * 3) ∧
    (isDue 12 3 (Job.mk "a" none 2) = true ↔ ((Job.mk "a" none 2).Frequency * 3) ∣ 12) :=
  ⟨by decide, c1_due_selection.2 12 3 (Job.mk "a" none 2) (by decide)⟩

/-- C2 (code bug): one invocation of `runJob` on a failing job sends TWO values
on its completion channel — the wrapped error and then, because the error branch
does not return, the unconditional nil — while a succeeding invocation sends
exactly one. -/
theorem c2_runJob_double_send :
    runJobSignals (Job.mk "a" (some "boom") 1) = [some "executing job a: boom", none] ∧
    (runJobSignals (Job.mk "a" (some "boom") 1)).length = 2 ∧
    runJobSignals (Job.mk "a" none 1) = [none] := by
  decide

/-- C7: at a tick where no job passes the due test, `processJobs` launches zero
units and returns nil. -/
theorem c7_zero_due_jobs (now interval : Int) (jobs : List Job)
    (h : ∀ j ∈ jobs, isDue now interval j = false) :
    dueJobs now interval jobs = [] ∧ processJobs now interval jobs = none := by
  have hd : dueJobs now interval jobs = [] := by
    apply List.filter_eq_nil_iff.mpr
    intro j hj
    simp [h j hj]
  refine ⟨hd, ?_⟩
  simp [processJobs, hd]

/-- C7 witness: a single job of frequency 3 at tick 5 with base interval 2 is
not due, so nothing is launched and the result is nil. -/
theorem c7_zero_due_jobs_witness :
    dueJobs 5 2 [Job.mk "a" none 3] = [] ∧ processJobs 5 2 [Job.mk "a" none 3] = none :=
  c7_zero_due_jobs 5 2 [Job.mk "a" none 3] (by decide)

/-- C10: a job with non-positive `Frequency` (zero or negative, with a
non-negative base interval) is due at every tick: the truncation duration
`Frequency * interval` is non-positive, so `goTruncate` returns the tick
unchanged and the due equality always holds; `processJobs` applies no other
validation to `Frequency`. -/
theorem c10_nonpositive_frequency (now interval : Int) (j : Job)
    (hf : j.Frequency ≤ 0) (hi : 0 ≤ interval) :
    isDue now interval j = true ∧ ∀ jobs, j ∈ jobs → j ∈ dueJobs now interval jobs := by
  have hd : j.Frequency * interval ≤ 0 := mul_nonpos_iff.mpr (Or.inr ⟨hf, hi⟩)
  have hdue : isDue now interval j = true := by
    simp [isDue, goTruncate, if_pos hd]
  exact ⟨hdue, fun jobs hj => List.mem_filter.mpr ⟨hj, hdue⟩⟩

/-- C10 witness: a job of frequency -3 is due at tick 7 with base interval 2 and
is selected from a singleton job list there. -/
theorem c10_nonpositive_frequency_witness :
    isDue 7 2 (Job.mk "z" none (-3)) = true ∧
    Job.mk "z" none (-3) ∈ dueJobs 7 2 [Job.mk "z" none (-3)] :=
  ⟨(c10_nonpositive_frequency 7 2 (Job.mk "z" none (-3)) (by decide) (by decide)).1,
   (c10_nonpositive_frequency 7 2 (Job.mk "z" none (-3)) (by decide) (by decide)).2
     [Job.mk "z" none (-3)] (by decide)⟩

theorem receiveLoop_fst (lgSet : Bool) (l : List Job) :
    (receiveLoop lgSet l).1 = l.filterMap receivedSignal := by
  induction l with
  | nil => rfl
  | cons j t ih =>
    cases hj : receivedSignal j <;> simp [receiveLoop, hj, ih]

theorem processJobsLog_fst (lgSet : Bool) (now interval : Int) (jobs : List Job) :
    (processJobsLog lgSet now interval jobs).1 = processJobs now interval jobs := by
  simp [processJobsLog, processJobs, receiveLoop_fst]

/-- C9: with no logger set, `debug`, `debugf` and `logf` invoke nothing; and the
value `processJobs` returns is the same whatever the logger configuration —
logging never affects results. -/
theorem c9_logger_never_affects_results :
    (∀ a, debug false a = []) ∧
    (∀ f a, debugf false f a = []) ∧
    (∀ f a, logf false f a = []) ∧
    (∀ (lgSet lgSet' : Bool) (now interval : Int) (jobs : List Job),
      (processJobsLog lgSet now interval jobs).1 =
        (processJobsLog lgSet' now interval jobs).1) := by
  refine ⟨fun a => rfl, fun f a => rfl, fun f a => rfl, fun b b' now interval jobs => ?_⟩
  rw [processJobsLog_fst, processJobsLog_fst]

theorem receivedSignal_eq (j : Job) : receivedSignal j = j.Exec.map (wrapJobErr j) := by
  cases h : j.Exec <;> simp [receivedSignal, runJobSignals, h]

theorem foldl_append_ex (l : List String) :
    ∀ acc : String, ∃ s, l.foldl (fun a e => a ++ ", " ++ e) acc = acc ++ s := by
  induction l with
  | nil => intro acc; exact ⟨"", by simp⟩
  | cons x t ih =>
    intro acc
    obtain ⟨s, hs⟩ := ih (acc ++ ", " ++ x)
    refine ⟨", " ++ x ++ s, ?_⟩
    simp only [List.foldl_cons, hs]
    simp [String.append_assoc]

theorem mem_foldl_containsStr (l : List String) :
    ∀ acc e, e ∈ l →
      ∃ lft r, l.foldl (fun a x => a ++ ", " ++ x) acc = lft ++ e ++ r := by
  induction l with
  | nil => intro acc e h; cases h
  | cons x t ih =>
    intro acc e h
    rcases List.mem_cons.mp h with rfl | ht
    · obtain ⟨s, hs⟩ := foldl_append_ex t (acc ++ ", " ++ e)
      refine ⟨acc ++ ", ", s, ?_⟩
      simp only [List.foldl_cons, hs]
    · obtain ⟨lft, r, hr⟩ := ih (acc ++ ", " ++ x) e ht
      exact ⟨lft, r, by simp only [List.foldl_cons, hr]⟩

/-- C5: the receive loop consumes exactly one signal per launched unit, so the
collected failures are exactly the wrapped errors of the failing due jobs in
launch order (no short-circuit on the first failure); with zero failing units
`processJobs` returns nil, and when at least one due job fails it returns one
combined error whose message contains the name of every failing job. -/
theorem c5_error_aggregation (now interval : Int) (jobs : List Job) :
    ((dueJobs now interval jobs).filterMap receivedSignal =
      (dueJobs now interval jobs).filterMap (fun j => j.Exec.map (wrapJobErr j))) ∧
    (processJobs now interval jobs = none ↔
      ∀ j ∈ dueJobs now interval jobs, j.Exec = none) ∧
    (∀ j ∈ dueJobs now interval jobs, ∀ e, j.Exec = some e →
      ∃ msg, processJobs now interval jobs = some msg ∧
        containsStr msg ("executing job " ++ j.Name)) := by
  have hfun : receivedSignal = fun j => j.Exec.map (wrapJobErr j) :=
    funext fun j => receivedSignal_eq j
  refine ⟨by rw [hfun], ?_, ?_⟩
  · constructor
    · intro h j hj
      by_cases he : (dueJobs now interval jobs).filterMap receivedSignal = []
      · have := List.filterMap_eq_nil_iff.mp he j hj
        rw [receivedSignal_eq] at this
        exact Option.map_eq_none'.mp this
      · simp only [processJobs] at h
        rw [if_neg (by simpa [List.isEmpty_iff] using he)] at h
        cases h
    · intro h
      have he : (dueJobs now interval jobs).filterMap receivedSignal = [] := by
        apply List.filterMap_eq_nil_iff.mpr
        intro j hj
        rw [receivedSignal_eq, h j hj]
        rfl
      simp [processJobs, he]
  · intro j hj e he
    have hmem : wrapJobErr j e ∈ (dueJobs now interval jobs).filterMap receivedSignal :=
      List.mem_filterMap.mpr ⟨j, hj, by rw [receivedSignal_eq, he]; rfl⟩
    have hne : ((dueJobs now interval jobs).filterMap receivedSignal).isEmpty = false := by
      simpa [List.isEmpty_iff] using List.ne_nil_of_mem hmem
    obtain ⟨lft, r, hr⟩ :=
      mem_foldl_containsStr ((dueJobs now interval jobs).filterMap receivedSignal) ""
        (wrapJobErr j e) hmem
    refine ⟨combineErrs ((dueJobs now interval jobs).filterMap receivedSignal), ?_, ?_⟩
    · simp [processJobs, hne]
    · refine ⟨lft, (": " ++ e) ++ r, ?_⟩
      rw [combineErrs, hr]
      simp [wrapJobErr, String.append_assoc]

/-- C5 witness: at tick 0 with base interval 1, the single due job `a` fails
with `boom`; `processJobs` returns a combined error mentioning job `a`. -/
theorem c5_error_aggregation_witness :
    ∃ msg, processJobs 0 1 [Job.mk "a" (some "boom") 1] = some msg ∧
      containsStr msg ("executing job " ++ "a") :=
  (c5_error_aggregation 0 1 [Job.mk "a" (some "boom") 1]).2.2
    (Job.mk "a" (some "boom") 1) (by decide) "boom" rfl

theorem accElapsed_shift (e0 : Int) (measure : Nat → Int) :
    ∀ k, accElapsed (e0 + measure 0) (fun i => measure (i + 1)) k =
      accElapsed e0 measure (k + 1) := by
  intro k
  induction k with
  | zero => rfl
  | succ n ih => simp only [accElapsed, ih]

/-- C3 counterexample: with base interval 10, initial `lastElapsed` 25 and every
re-measured `lastElapsed` equal to 8, the loop of the code runs 8 catch-up
rounds, because the accumulated `elapsed` keeps exceeding `totalInterval`; under
the rule of the claim as stated (compare the re-measured `lastElapsed` itself)
it would stop after a single round, since 8 does not exceed 20. -/
theorem c3_counterexample :
    (catchupLoop 10 0 [] (fun _ => 8) (fun _ => 100) 25 10 25 20).1.length = 8 ∧
    (claimLoopC3 10 0 [] (fun _ => 8) (fun _ => 100) 25 10 25 20).1.length = 1 := by
  decide

/-- C3 (amended): the continuation test of the catch-up sub-loop compares the
accumulated `elapsed` — initialized to the first `lastElapsed` measurement and
grown by the newly re-measured `lastElapsed` each round — against
`totalInterval`: every executed round `k` was entered with
`accElapsed elapsed measure k` exceeding its budget, and on normal exit the
accumulated value no longer exceeds the budget. -/
theorem c3_continuation_compares_accumulated_elapsed :
    ∀ (fuel : Nat) (interval now : Int) (jobs : List Job) (measure maxK : Nat → Int)
      (elapsed total last lastF : Int) (ticks : List Int),
      catchupLoop interval now jobs measure maxK elapsed total last fuel =
        (ticks, RunOutcome.ok lastF) →
      (∀ k < ticks.length, total + interval * (k : Int) < accElapsed elapsed measure k) ∧
      accElapsed elapsed measure ticks.length ≤
        total + interval * (ticks.length : Int) := by
  intro fuel
  induction fuel with
  | zero =>
    intro interval now jobs measure maxK elapsed total last lastF ticks h
    simp [catchupLoop, Prod.ext_iff] at h
  | succ n ih =>
    intro interval now jobs measure maxK elapsed total last lastF ticks h
    simp only [catchupLoop] at h
    by_cases hc : elapsed > total
    · rw [if_pos hc] at h
      cases hp : processJobs (now + total) interval jobs with
      | some e => rw [hp] at h; simp [Prod.ext_iff] at h
      | none =>
        rw [hp] at h
        by_cases hm : total > interval * maxK 0
        · rw [if_pos hm] at h
          simp [Prod.ext_iff] at h
        · rw [if_neg hm] at h
          simp only [Prod.mk.injEq] at h
          obtain ⟨hticks, hout⟩ := h
          have hrec := ih interval now jobs (fun i => measure (i + 1))
            (fun i => maxK (i + 1)) (elapsed + measure 0) (total + interval)
            (measure 0) lastF
            (catchupLoop interval now jobs (fun i => measure (i + 1))
              (fun i => maxK (i + 1)) (elapsed + measure 0) (total + interval)
              (measure 0) n).1 (by rw [← hout])
          subst hticks
          constructor
          · intro k hk
            cases k with
            | zero => simpa using hc
            | succ j =>
              have hj : j < (catchupLoop interval now jobs (fun i => measure (i + 1))
                  (fun i => maxK (i + 1)) (elapsed + measure 0) (total + interval)
                  (measure 0) n).1.length := by
                simpa using Nat.lt_of_succ_lt_succ (by simpa using hk)
              have := hrec.1 j hj
              rw [accElapsed_shift] at this
              push_cast
              linarith
          · have := hrec.2
            rw [accElapsed_shift] at this
            simp only [List.length_cons]
            push_cast
            linarith
    · rw [if_neg hc] at h
      simp only [Prod.mk.injEq] at h
      obtain ⟨hticks, hout⟩ := h
      subst hticks
      refine ⟨by simp, ?_⟩
      simpa [accElapsed] using not_lt.mp hc

/-- C3 witness: with interval 10, initial measurement 25 and re-measurements 3,
the loop runs exactly 3 rounds; applying the continuation theorem to that
concrete run yields the entry bound of round 0 and the exit bound. -/
theorem c3_continuation_witness :
    ((10 : Int) + 10 * ((0 : Nat) : Int) < accElapsed 25 (fun _ => 3) 0) ∧
    accElapsed 25 (fun _ => 3) 3 ≤ 10 + 10 * ((3 : Nat) : Int) := by
  have h := c3_continuation_compares_accumulated_elapsed 20 10 0 []
    (fun _ => 3) (fun _ => 100) 25 10 25 3 [10, 20, 30] (by decide)
  exact ⟨by simpa using h.1 0 (by decide), by simpa using h.2⟩

/-- C4 counterexample: with base interval 10, a limit of 1 and measurements that
keep the loop going, the code processes a second catch-up tick (at 20) in the
round whose ceiling check fires, because the check compares the pre-advance
`totalInterval` (10, then 20) with `interval * maxKetchups` (10); under the rule
of the claim as stated — advance first, then check — the loop would stop after
the single tick at 10 and process no further ticks. -/
theorem c4_counterexample :
    catchupLoop 10 0 [] (fun _ => 100) (fun _ => 1) 100 10 100 10 =
      ([10, 20], RunOutcome.maxCatchups) ∧
    claimLoopC4 10 0 [] (fun _ => 100) (fun _ => 1) 100 10 100 10 =
      ([10], RunOutcome.maxCatchups) := by
  decide

theorem catchupLoop_maxCatchups_charn :
    ∀ (fuel : Nat) (interval now : Int) (jobs : List Job) (measure maxK : Nat → Int)
      (elapsed total last : Int) (ticks : List Int),
      catchupLoop interval now jobs measure maxK elapsed total last fuel =
        (ticks, RunOutcome.maxCatchups) →
      1 ≤ ticks.length ∧
      (∀ k < ticks.length - 1, total + interval * (k : Int) ≤ interval * maxK k) ∧
      interval * maxK (ticks.length - 1) <
        total + interval * ((ticks.length - 1 : Nat) : Int) := by
  intro fuel
  induction fuel with
  | zero =>
    intro interval now jobs measure maxK elapsed total last ticks h
    simp [catchupLoop, Prod.ext_iff] at h
  | succ n ih =>
    intro interval now jobs measure maxK elapsed total last ticks h
    simp only [catchupLoop] at h
    by_cases hc : elapsed > total
    · rw [if_pos hc] at h
      cases hp : processJobs (now + total) interval jobs with
      | some e => rw [hp] at h; simp [Prod.ext_iff] at h
      | none =>
        rw [hp] at h
        by_cases hm : total > interval * maxK 0
        · rw [if_pos hm] at h
          simp only [Prod.mk.injEq] at h
          obtain ⟨hticks, -⟩ := h
          subst hticks
          refine ⟨by simp, by simp, ?_⟩
          simpa using hm
        · rw [if_neg hm] at h
          simp only [Prod.mk.injEq] at h
          obtain ⟨hticks, hout⟩ := h
          set rc := catchupLoop interval now jobs (fun i => measure (i + 1))
            (fun i => maxK (i + 1)) (elapsed + measure 0) (total + interval)
            (measure 0) n with hrc
          have hrec := ih interval now jobs (fun i => measure (i + 1))
            (fun i => maxK (i + 1)) (elapsed + measure 0) (total + interval)
            (measure 0) rc.1 (by rw [← hout, hrc])
          subst hticks
          obtain ⟨h1, h2, h3⟩ := hrec
          simp only [] at h2 h3
          simp only [List.length_cons, Nat.add_sub_cancel]
          refine ⟨by omega, ?_, ?_⟩
          · intro k hk
            cases k with
            | zero => simpa using not_lt.mp hm
            | succ j =>
              have hj := h2 j (by omega)
              push_cast
              linarith
          · have hL : rc.1.length - 1 + 1 = rc.1.length := Nat.sub_add_cancel h1
            rw [hL] at h3
            have hcast : ((rc.1.length : Nat) : Int) = ((rc.1.length - 1 : Nat) : Int) + 1 := by
              omega
            rw [hcast]
            linarith
    · rw [if_neg hc] at h
      simp [Prod.ext_iff] at h

/-- C4 (amended): the ceiling check of the catch-up sub-loop fires on the
pre-advance `totalInterval` of the current round, after that round's tick has
been processed: when the loop ends with the max-catchups error, every earlier
round had its (pre-advance) `totalInterval` within `interval * maxKetchups` as
read at its check, the final round's pre-advance `totalInterval` exceeded the
value read at its check, no further ticks are processed, and the returned
error's `Temporary()` reports true. -/
theorem c4_ceiling_check_uses_preadvance_total (fuel : Nat) (interval now : Int)
    (jobs : List Job) (measure maxK : Nat → Int) (elapsed total last : Int)
    (ticks : List Int)
    (h : catchupLoop interval now jobs measure maxK elapsed total last fuel =
      (ticks, RunOutcome.maxCatchups)) :
    1 ≤ ticks.length ∧
    (∀ k < ticks.length - 1, total + interval * (k : Int) ≤ interval * maxK k) ∧
    interval * maxK (ticks.length - 1) <
      total + interval * ((ticks.length - 1 : Nat) : Int) ∧
    ErrMaxCatchups.Temporary ⟨⟩ = true := by
  obtain ⟨h1, h2, h3⟩ := catchupLoop_maxCatchups_charn fuel interval now jobs measure maxK
    elapsed total last ticks h
  exact ⟨h1, h2, h3, rfl⟩

/-- C4 witness: the concrete run of the counterexample input, where the loop
errors in round 1 with pre-advance `totalInterval` 20 exceeding the ceiling
`10 * 1`, round 0 having been within it. -/
theorem c4_ceiling_check_witness :
    ((10 : Int) + 10 * ((0 : Nat) : Int) ≤ 10 * 1) ∧
    ((10 : Int) * 1 < 10 + 10 * ((1 : Nat) : Int)) ∧
    ErrMaxCatchups.Temporary ⟨⟩ = true := by
  have h := c4_ceiling_check_uses_preadvance_total 10 10 0 [] (fun _ => 100)
    (fun _ => 1) 100 10 100 [10, 20] (by decide)
  exact ⟨h.2.1 0 (by decide), h.2.2.1, h.2.2.2⟩

theorem range_map_cons_shift (a d : Int) (n : Nat) :
    a :: (List.range n).map (fun i : Nat => a + d + d * (i : Int)) =
      (List.range (n + 1)).map (fun i : Nat => a + d * (i : Int)) := by
  rw [List.range_succ_eq_map, List.map_cons, List.map_map]
  have hfun : ((fun i : Nat => a + d * (i : Int)) ∘ Nat.succ) =
      (fun i : Nat => a + d + d * (i : Int)) := by
    funext i
    simp only [Function.comp]
    push_cast
    ring
  rw [hfun]
  simp

theorem catchupLoop_ticks_shape :
    ∀ (fuel : Nat) (interval now : Int) (jobs : List Job) (measure maxK : Nat → Int)
      (elapsed total last : Int) (ticks : List Int) (out : RunOutcome),
      catchupLoop interval now jobs measure maxK elapsed total last fuel = (ticks, out) →
      ∃ n, ticks = (List.range n).map (fun i : Nat => now + total + interval * (i : Int)) := by
  intro fuel
  induction fuel with
  | zero =>
    intro interval now jobs measure maxK elapsed total last ticks out h
    simp only [catchupLoop, Prod.mk.injEq] at h
    exact ⟨0, by simp [← h.1]⟩
  | succ n ih =>
    intro interval now jobs measure maxK elapsed total last ticks out h
    simp only [catchupLoop] at h
    by_cases hc : elapsed > total
    · rw [if_pos hc] at h
      cases hp : processJobs (now + total) interval jobs with
      | some e =>
        rw [hp] at h
        simp only [Prod.mk.injEq] at h
        exact ⟨1, by simp [← h.1, List.range_succ]⟩
      | none =>
        rw [hp] at h
        by_cases hm : total > interval * maxK 0
        · rw [if_pos hm] at h
          simp only [Prod.mk.injEq] at h
          exact ⟨1, by simp [← h.1, List.range_succ]⟩
        · rw [if_neg hm] at h
          simp only [Prod.mk.injEq] at h
          obtain ⟨hticks, hout⟩ := h
          set rc := catchupLoop interval now jobs (fun i => measure (i + 1))
            (fun i => maxK (i + 1)) (elapsed + measure 0) (total + interval)
            (measure 0) n with hrc
          obtain ⟨m, hm2⟩ := ih interval now jobs (fun i => measure (i + 1))
            (fun i => maxK (i + 1)) (elapsed + measure 0) (total + interval)
            (measure 0) rc.1 rc.2 (by rw [hrc])
          refine ⟨m + 1, ?_⟩
          rw [← hticks, hm2]
          have hassoc : (fun i : Nat => now + (total + interval) + interval * (i : Int)) =
              (fun i : Nat => (now + total) + interval + interval * (i : Int)) := by
            funext i
            ring
          rw [hassoc, range_map_cons_shift]
    · rw [if_neg hc] at h
      simp only [Prod.mk.injEq] at h
      exact ⟨0, by simp [← h.1]⟩

/-- C6: within one outer iteration of `Run`, the job list returned by the single
`getJobs()` call is the one passed to every `processJobs` call of the iteration
(base tick and all catch-up ticks), and the processed tick boundaries form the
sequence `now, now + I, now + 2I, ...` where `now` is the truncated iteration
start and `I` the base interval. -/
theorem c6_single_load_and_tick_sequence (interval nowRaw elapsed0 : Int)
    (jobs : List Job) (measure maxK : Nat → Int) (fuel : Nat) :
    (∀ p ∈ (runIteration interval nowRaw (Except.ok jobs) elapsed0 measure maxK fuel).1,
      p.2 = jobs) ∧
    (∃ n, (runIteration interval nowRaw (Except.ok jobs) elapsed0 measure maxK fuel).1.map
        Prod.fst =
      (List.range n).map (fun i : Nat => goTruncate nowRaw interval + interval * (i : Int))) := by
  simp only [runIteration]
  cases hp : processJobs (goTruncate nowRaw interval) interval jobs with
  | some e =>
    refine ⟨by simp, ⟨1, by simp [List.range_succ]⟩⟩
  | none =>
    set rc := catchupLoop interval (goTruncate nowRaw interval) jobs measure maxK
      elapsed0 interval elapsed0 fuel with hrc
    constructor
    · intro p hp2
      simp only [List.mem_cons, List.mem_map] at hp2
      rcases hp2 with rfl | ⟨t, -, rfl⟩
      · rfl
      · rfl
    · obtain ⟨m, hm⟩ := catchupLoop_ticks_shape fuel interval (goTruncate nowRaw interval)
        jobs measure maxK elapsed0 interval elapsed0 rc.1 rc.2 (by rw [hrc])
      refine ⟨m + 1, ?_⟩
      simp only [List.map_cons, List.map_map]
      have hcomp : (Prod.fst ∘ fun t : Int => (t, jobs)) = id := by
        funext t
        rfl
      rw [hcomp, List.map_id, hm]
      exact range_map_cons_shift (goTruncate nowRaw interval) interval m

/-- C8: the max-catchup limit defaults to 20, `SetMaxCatchup` replaces the
process-wide value with its argument, and the limit is read afresh at each
ceiling check: a run whose limit reads stay 5 differs from a run identical up to
round 0 in which `SetMaxCatchup 1` takes effect from the round-1 check on. -/
theorem c8_max_catchup_configuration :
    maxKetchups = 20 ∧
    (∀ m cur : Int, SetMaxCatchup m cur = m) ∧
    catchupLoop 10 0 [] (fun _ => 1000) (fun _ => 5) 1000 10 1000 10 ≠
      catchupLoop 10 0 [] (fun _ => 1000)
        (fun k => if k = 0 then 5 else SetMaxCatchup 1 5) 1000 10 1000 10 := by
  refine ⟨rfl, fun m cur => rfl, by decide⟩

/-- C6 witness: in a concrete overrunning iteration (interval 10, raw start 7,
one always-due job, initial measurement 25, re-measurements 3), the base-tick
call at boundary 0 is made with the loaded job list. -/
theorem c6_single_load_witness :
    (((0 : Int), [Job.mk "a" none 1]) : Int × List Job).2 = [Job.mk "a" none 1] :=
  (c6_single_load_and_tick_sequence 10 7 25 [Job.mk "a" none 1]
    (fun _ => 3) (fun _ => 100) 20).1 ((0 : Int), [Job.mk "a" none 1]) (by decide)
